import Mathlib

/-!
Verification of the move-quality analysis engine of the MAIgnus_CAIrlsen
repository, a shallow embedding of `src/modular_analyzer.py`
(`analyze_with_stockfish`), `src/analyzer.py` (`analyze_with_stockfish`) and
their shared per-ply classification logic.

Modelling choices (all traceable to the source):

* A game is its list of SAN move strings (`game.mainline_moves()` together
  with `board.san(move)`); positions are indexed by the number of plies
  already applied, so the board at the start of loop iteration `i`
  (0-based) is position `i` and `board.fen()` at that point is modelled by
  the index itself.
* The engine (`engine.analyse(board, Limit(depth=15))` followed by
  `info["score"].white().score(mate_score=10000)`) is modelled as a
  function `Nat → Int` from position indices to White-perspective
  centipawn scores; with `mate_score` supplied, `score` always returns an
  integer, so the `current_eval is not None` guard in the source is
  always true and the evaluation is total.  For the error-path model the
  oracle is `Nat → Option Int`, `none` standing for a raised exception
  (`EngineError`/timeout) at that query.
* `board.turn == chess.WHITE` holds exactly when an even number of plies
  has been applied, so the mover at a step is decided by the parity of
  the position index.
* Python's `list.sort(key=lambda x: x["cp_loss"], reverse=True)` is a
  stable descending sort; `sortDesc` below is a stable insertion sort for
  the same ordering and therefore computes the same list.
* Python's `round` applied to an exact quotient is round-half-to-even;
  `pyRoundDiv` implements that on the integers (the totals and counts
  the source divides are machine integers).
-/

namespace MAIgnus

/-- Side to move, the source's `"white"` / `"black"` strings. -/
inductive Player where
  | white
  | black
  deriving DecidableEq, Repr

/-- A field of the returned summary dictionary: an integer on the normal
path or the string `"N/A"` on the error path of the source. -/
inductive StatValue where
  | num : Int → StatValue
  | na : StatValue
  deriving DecidableEq, Repr

/-- The per-player accumulator dictionary
`{"total_cp_loss": 0, "move_count": 0, "blunders": 0, "mistakes": 0,
"inaccuracies": 0}` of both analyzers.  The field `oks` is a ghost
counter for the implicit final `else` of the classification chain (a
classified ply that hits no threshold); the source keeps no such key, the
counter exists only so that tier-partition claims can be stated. -/
structure PlayerStats where
  total_cp_loss : Int := 0
  move_count : Nat := 0
  blunders : Nat := 0
  mistakes : Nat := 0
  inaccuracies : Nat := 0
  oks : Nat := 0
  deriving DecidableEq, Repr

/-- A critical-moment record as appended by `modular_analyzer` (the
`fen` string is modelled by the pre-move position index). -/
structure CriticalMoment where
  move_num : Nat
  player : Player
  move : String
  cp_loss : Int
  fen : Nat
  pre_eval : Int
  post_eval : Int
  deriving DecidableEq, Repr

/-- Loop state of `modular_analyzer.analyze_with_stockfish`.  The field
`queries` is a ghost log of the position indices passed to
`engine.analyse`, used only to state claims about the query pattern. -/
structure MState where
  white_stats : PlayerStats := {}
  black_stats : PlayerStats := {}
  critical_moments : List CriticalMoment := []
  last_eval : Option Int := none
  move_num : Nat := 0
  queries : List Nat := []
  deriving DecidableEq, Repr

/-- The severity-threshold chain of `modular_analyzer` (lines 61-66):
`> 300` blunder, `> 75` mistake, `> 20` inaccuracy, else nothing (ghost
`oks`). -/
def bumpTier (stats : PlayerStats) (cp_loss : Int) : PlayerStats :=
  if cp_loss > 300 then { stats with blunders := stats.blunders + 1 }
  else if cp_loss > 75 then { stats with mistakes := stats.mistakes + 1 }
  else if cp_loss > 20 then { stats with inaccuracies := stats.inaccuracies + 1 }
  else { stats with oks := stats.oks + 1 }

/-- One iteration of the `for move in game.mainline_moves()` loop of
`modular_analyzer.analyze_with_stockfish`, given the value
`current_eval` the engine returned for the board at the start of the
iteration (position `st.move_num`, the pre-move position of this ply). -/
def stepCore (st : MState) (san_move : String) (current_eval : Int) : MState :=
  let current_player : Player :=
    if st.move_num % 2 = 0 then Player.white else Player.black
  let stats0 := if current_player = Player.white then st.white_stats else st.black_stats
  let stats1 := { stats0 with move_count := stats0.move_count + 1 }
  match st.last_eval with
  | none =>
    { white_stats := if current_player = Player.white then stats1 else st.white_stats
      black_stats := if current_player = Player.black then stats1 else st.black_stats
      critical_moments := st.critical_moments
      last_eval := some current_eval
      move_num := st.move_num + 1
      queries := st.queries ++ [st.move_num] }
  | some last_eval =>
    let cp_loss : Int :=
      if current_player = Player.white then max 0 (last_eval - current_eval)
      else max 0 (current_eval - last_eval)
    let stats2 := bumpTier { stats1 with total_cp_loss := stats1.total_cp_loss + cp_loss } cp_loss
    let cms :=
      if cp_loss > 10 then
        st.critical_moments ++
          [{ move_num := st.move_num + 1
             player := current_player
             move := san_move
             cp_loss := cp_loss
             fen := st.move_num
             pre_eval := last_eval
             post_eval := current_eval }]
      else st.critical_moments
    { white_stats := if current_player = Player.white then stats2 else st.white_stats
      black_stats := if current_player = Player.black then stats2 else st.black_stats
      critical_moments := cms
      last_eval := some current_eval
      move_num := st.move_num + 1
      queries := st.queries ++ [st.move_num] }

/-- The whole move loop of `modular_analyzer` for a total oracle. -/
def loopM (ev : Nat → Int) (st : MState) (moves : List String) : MState :=
  moves.foldl (fun s m => stepCore s m (ev s.move_num)) st

/-- Final loop state of `modular_analyzer.analyze_with_stockfish` on a
game (its internal statistics, before summary formatting). -/
def analyzeState (moves : List String) (ev : Nat → Int) : MState :=
  loopM ev {} moves

/-- Stable insertion of a critical moment into a list sorted by
descending `cp_loss`: the element goes before the first entry whose key
is `≤` its own, so earlier-appended entries stay first among equal keys. -/
def insertCM (x : CriticalMoment) : List CriticalMoment → List CriticalMoment
  | [] => [x]
  | y :: ys => if x.cp_loss < y.cp_loss then y :: insertCM x ys else x :: y :: ys

/-- Stable descending sort by `cp_loss`; computes the same list as the
source's `critical_moments.sort(key=lambda x: x["cp_loss"], reverse=True)`
(Python's sort is stable). -/
def sortDesc : List CriticalMoment → List CriticalMoment
  | [] => []
  | x :: xs => insertCM x (sortDesc xs)

/-- `critical_moments.sort(...); top_critical_moments = critical_moments[:3]`. -/
def topCritical (st : MState) : List CriticalMoment :=
  (sortDesc st.critical_moments).take 3

/-- Python's `round(t / c)` for integer `t` and positive integer `c`:
floor quotient, then round half to even on the exact fraction. -/
def pyRoundDiv (t : Int) (c : Nat) : Int :=
  let q := Int.ediv t c
  let r := Int.emod t c
  if 2 * r < (c : Int) then q
  else if (c : Int) < 2 * r then q + 1
  else if Int.emod q 2 = 0 then q else q + 1

/-- `round(total_cp_loss / move_count) if move_count else 0`. -/
def avgOf (ps : PlayerStats) : Int :=
  if ps.move_count ≠ 0 then pyRoundDiv ps.total_cp_loss ps.move_count else 0

/-- One side of the returned `stockfish_summary` dictionary. -/
structure SideSummary where
  avg_cpl : StatValue
  blunders : StatValue
  mistakes : StatValue
  inaccuracies : StatValue
  deriving DecidableEq, Repr

/-- The returned `stockfish_summary` dictionary. -/
structure Summary where
  white : SideSummary
  black : SideSummary
  deriving DecidableEq, Repr

/-- Normal-path summary entry for one side. -/
def sideSummaryOf (ps : PlayerStats) : SideSummary :=
  { avg_cpl := StatValue.num (avgOf ps)
    blunders := StatValue.num ps.blunders
    mistakes := StatValue.num ps.mistakes
    inaccuracies := StatValue.num ps.inaccuracies }

/-- Normal-path summary of a final loop state. -/
def summaryOf (st : MState) : Summary :=
  { white := sideSummaryOf st.white_stats
    black := sideSummaryOf st.black_stats }

/-- `modular_analyzer.analyze_with_stockfish` on the normal path: the
returned pair `(stockfish_summary, top_critical_moments)`. -/
def analyzeModular (moves : List String) (ev : Nat → Int) :
    Summary × List CriticalMoment :=
  let st := analyzeState moves ev
  (summaryOf st, topCritical st)

/-- The all-`"N/A"` fallback entry built in the `except` handler. -/
def naSide : SideSummary :=
  { avg_cpl := StatValue.na
    blunders := StatValue.na
    mistakes := StatValue.na
    inaccuracies := StatValue.na }

/-- The fallback summary of the `except` handler. -/
def naSummary : Summary := { white := naSide, black := naSide }

/-- Outcome of one whole call of `modular_analyzer.analyze_with_stockfish`
including the resource bookkeeping: `engineReleased` records whether
`engine.quit()` (line 83, executed only when the loop finishes without an
exception) ran before the function returned. -/
structure RunResult where
  summary : Summary
  critical : List CriticalMoment
  engineReleased : Bool
  deriving DecidableEq, Repr

/-- The move loop against a fallible oracle: a query returning `none`
models `engine.analyse` raising, which aborts the loop at that ply. -/
def loopE (ev : Nat → Option Int) : List String → MState → Except Unit MState
  | [], st => Except.ok st
  | san :: rest, st =>
    match ev st.move_num with
    | none => Except.error ()
    | some v => loopE ev rest (stepCore st san v)

/-- `modular_analyzer.analyze_with_stockfish` with its `try`/`except`:
on the normal path it quits the engine and returns the summary and top
critical moments; when a query raises, the handler logs and returns the
`"N/A"` fallback with an empty list, without quitting the engine. -/
def analyzeModularE (moves : List String) (ev : Nat → Option Int) : RunResult :=
  match loopE ev moves {} with
  | Except.ok st =>
    { summary := summaryOf st, critical := topCritical st, engineReleased := true }
  | Except.error _ =>
    { summary := naSummary, critical := [], engineReleased := false }

/-! ## The older dual-player variant, `src/analyzer.py` -/

/-- Loop state of `analyzer.analyze_with_stockfish` (no critical-moment
list, no fen bookkeeping). -/
structure OState where
  white_stats : PlayerStats := {}
  black_stats : PlayerStats := {}
  last_eval : Option Int := none
  move_num : Nat := 0
  deriving DecidableEq, Repr

/-- The severity-threshold chain of `analyzer.py` (lines 58-63):
`> 300` blunder, `> 100` mistake, `> 50` inaccuracy, else nothing
(ghost `oks`). -/
def bumpTierOld (stats : PlayerStats) (cp_loss : Int) : PlayerStats :=
  if cp_loss > 300 then { stats with blunders := stats.blunders + 1 }
  else if cp_loss > 100 then { stats with mistakes := stats.mistakes + 1 }
  else if cp_loss > 50 then { stats with inaccuracies := stats.inaccuracies + 1 }
  else { stats with oks := stats.oks + 1 }

/-- One iteration of the move loop of `analyzer.analyze_with_stockfish`:
same replay and attribution scheme, but the loss is
`abs(last_eval - current_eval)` for both sides and the older thresholds
apply. -/
def stepOldCore (st : OState) (current_eval : Int) : OState :=
  let current_player : Player :=
    if st.move_num % 2 = 0 then Player.white else Player.black
  let stats0 := if current_player = Player.white then st.white_stats else st.black_stats
  let stats1 := { stats0 with move_count := stats0.move_count + 1 }
  match st.last_eval with
  | none =>
    { white_stats := if current_player = Player.white then stats1 else st.white_stats
      black_stats := if current_player = Player.black then stats1 else st.black_stats
      last_eval := some current_eval
      move_num := st.move_num + 1 }
  | some last_eval =>
    let cp_loss : Int := |last_eval - current_eval|
    let stats2 := bumpTierOld { stats1 with total_cp_loss := stats1.total_cp_loss + cp_loss } cp_loss
    { white_stats := if current_player = Player.white then stats2 else st.white_stats
      black_stats := if current_player = Player.black then stats2 else st.black_stats
      last_eval := some current_eval
      move_num := st.move_num + 1 }

/-- The whole move loop of `analyzer.py`. -/
def loopOld (ev : Nat → Int) (st : OState) (moves : List String) : OState :=
  moves.foldl (fun s _ => stepOldCore s (ev s.move_num)) st

/-- Final loop state of `analyzer.analyze_with_stockfish` on a game. -/
def analyzeOldState (moves : List String) (ev : Nat → Int) : OState :=
  loopOld ev {} moves

/-- Sum of the severity-tier counters of one side (with the ghost `oks`
standing for the OK tier). -/
def tierSum (ps : PlayerStats) : Nat :=
  ps.oks + ps.inaccuracies + ps.mistakes + ps.blunders

/-- Ordering required of the critical-moment list: strictly greater loss
first, ties by ascending ply index. -/
def cmOrder (a b : CriticalMoment) : Prop :=
  b.cp_loss < a.cp_loss ∨ (a.cp_loss = b.cp_loss ∧ a.move_num < b.move_num)

/-! ## Basic step and loop lemmas -/

theorem stepCore_move_num (st : MState) (m : String) (v : Int) :
    (stepCore st m v).move_num = st.move_num + 1 := by
  unfold stepCore
  cases st.last_eval <;> simp

theorem stepCore_queries (st : MState) (m : String) (v : Int) :
    (stepCore st m v).queries = st.queries ++ [st.move_num] := by
  unfold stepCore
  cases st.last_eval <;> simp

theorem stepCore_last_eval (st : MState) (m : String) (v : Int) :
    (stepCore st m v).last_eval = some v := by
  unfold stepCore
  cases st.last_eval <;> simp

theorem loopM_inv {P : MState → Prop} (ev : Nat → Int)
    (hstep : ∀ s m, P s → P (stepCore s m (ev s.move_num))) :
    ∀ moves st, P st → P (loopM ev st moves) := by
  intro moves
  induction moves with
  | nil => intro st h; exact h
  | cons m rest ih => intro st h; exact ih _ (hstep _ _ h)

theorem loopM_move_num (ev : Nat → Int) (moves : List String) (st : MState) :
    (loopM ev st moves).move_num = st.move_num + moves.length := by
  induction moves generalizing st with
  | nil => simp [loopM]
  | cons m rest ih =>
    show (loopM ev (stepCore st m (ev st.move_num)) rest).move_num = _
    rw [ih, stepCore_move_num]
    simp
    omega

theorem bumpTier_tierSum (s : PlayerStats) (c : Int) :
    tierSum (bumpTier s c) = tierSum s + 1 := by
  unfold bumpTier tierSum
  split_ifs <;> simp <;> omega

theorem bumpTier_move_count (s : PlayerStats) (c : Int) :
    (bumpTier s c).move_count = s.move_count := by
  unfold bumpTier
  split_ifs <;> simp

theorem bumpTier_total (s : PlayerStats) (c : Int) :
    (bumpTier s c).total_cp_loss = s.total_cp_loss := by
  unfold bumpTier
  split_ifs <;> simp

/-- C2. The query log of the modular analyzer: exactly one query per ply,
for that ply's pre-move position (indices `0 … N-1`); the position after
the final ply (index `N`) is never queried, so there are `N` queries, not
the `N+1` the specification demands. -/
theorem c2_query_pattern (moves : List String) (ev : Nat → Int) :
    (analyzeState moves ev).queries = List.range moves.length := by
  have h : (loopM ev {} moves).queries = List.range (loopM ev {} moves).move_num :=
    loopM_inv (P := fun st => st.queries = List.range st.move_num) ev
      (fun s m hs => by
        simp only [stepCore_queries, stepCore_move_num]
        rw [hs, List.range_succ])
      moves {} rfl
  unfold analyzeState
  rw [h, loopM_move_num]
  simp

/-- Invariant behind the tier-partition claim: the first ply of the game
(always White's) is counted but never classified; every later ply lands
in exactly one tier of its mover. -/
def tierInvP (st : MState) : Prop :=
  (st.last_eval = none ↔ st.move_num = 0) ∧
  tierSum st.black_stats = st.black_stats.move_count ∧
  tierSum st.white_stats + (if st.move_num = 0 then 0 else 1) =
    st.white_stats.move_count

theorem tierInvP_step (s : MState) (m : String) (v : Int) (hs : tierInvP s) :
    tierInvP (stepCore s m v) := by
  obtain ⟨h1, h2, h3⟩ := hs
  unfold tierInvP stepCore
  cases hle : s.last_eval with
  | none =>
    have hmn : s.move_num = 0 := h1.mp hle
    simp [hmn, tierSum] at *
    omega
  | some le =>
    have hmn : ¬ s.move_num = 0 := by
      intro h
      rw [h1.mpr h] at hle
      exact Option.noConfusion hle
    by_cases hp : s.move_num % 2 = 0 <;>
      simp [hp, hmn, tierSum, bumpTier] at * <;> split_ifs <;> simp <;> omega

/-- C6 (amended). Every classified ply lands in exactly one severity
tier, but the game's first ply (White's, whenever the game is nonempty)
is counted in the ply count yet never classified: Black's tier counts sum
to Black's ply count, while White's sum to White's ply count minus one on
nonempty games. -/
theorem c6_tier_partition (moves : List String) (ev : Nat → Int) :
    tierSum (analyzeState moves ev).black_stats =
      (analyzeState moves ev).black_stats.move_count ∧
    tierSum (analyzeState moves ev).white_stats +
        (if moves.length = 0 then 0 else 1) =
      (analyzeState moves ev).white_stats.move_count := by
  have h : tierInvP (loopM ev {} moves) :=
    loopM_inv (P := tierInvP) ev (fun s m hs => tierInvP_step s m (ev s.move_num) hs)
      moves {} ⟨by simp, rfl, by simp [tierSum]⟩
  obtain ⟨-, h2, h3⟩ := h
  have hmn : (loopM ev {} moves).move_num = moves.length := by
    rw [loopM_move_num]
    simp
  rw [hmn] at h3
  exact ⟨h2, h3⟩

/-- C6 counterexample: in the one-ply game (any oracle), White's tier
counts sum to `0` although White's ply count is `1` — the claimed
per-side partition `sum(tiers) = ply_count` fails. -/
theorem c6_counterexample :
    tierSum (analyzeState ["e4"] (fun _ => 0)).white_stats ≠
      (analyzeState ["e4"] (fun _ => 0)).white_stats.move_count := by
  decide

theorem mem_insertCM {x z : CriticalMoment} {l : List CriticalMoment} :
    z ∈ insertCM x l ↔ z = x ∨ z ∈ l := by
  induction l with
  | nil => simp [insertCM]
  | cons y ys ih =>
    unfold insertCM
    split_ifs with h
    · rw [List.mem_cons, ih, List.mem_cons]
      tauto
    · rw [List.mem_cons]

theorem mem_sortDesc {z : CriticalMoment} {l : List CriticalMoment} :
    z ∈ sortDesc l ↔ z ∈ l := by
  induction l with
  | nil => simp [sortDesc]
  | cons x xs ih => simp [sortDesc, mem_insertCM, ih]

/-- Non-negativity invariant of the modular analyzer's loop state. -/
def nonnegInvP (st : MState) : Prop :=
  0 ≤ st.white_stats.total_cp_loss ∧ 0 ≤ st.black_stats.total_cp_loss ∧
  ∀ cm ∈ st.critical_moments, 0 ≤ cm.cp_loss

theorem nonnegInvP_step (s : MState) (m : String) (v : Int) (hs : nonnegInvP s) :
    nonnegInvP (stepCore s m v) := by
  obtain ⟨h1, h2, h3⟩ := hs
  unfold nonnegInvP stepCore
  cases hle : s.last_eval with
  | none =>
    by_cases hp : s.move_num % 2 = 0 <;> simp [hp] <;> exact ⟨h1, h2, h3⟩
  | some le =>
    have hcpw : (0:Int) ≤ max 0 (le - v) := le_max_left 0 _
    have hcpb : (0:Int) ≤ max 0 (v - le) := le_max_left 0 _
    by_cases hp : s.move_num % 2 = 0
    · simp only [hp, reduceIte, reduceCtorEq, eq_self_iff_true, if_true, if_false]
      refine ⟨?_, h2, ?_⟩
      · rw [bumpTier_total]
        dsimp only
        exact add_nonneg h1 hcpw
      · split_ifs with hc
        · intro cm hcm
          rcases List.mem_append.mp hcm with hcm | hcm
          · exact h3 cm hcm
          · have := List.mem_singleton.mp hcm
            subst this
            exact hcpw
        · exact h3
    · simp only [hp, reduceIte, reduceCtorEq, eq_self_iff_true, if_true, if_false]
      refine ⟨h1, ?_, ?_⟩
      · rw [bumpTier_total]
        dsimp only
        exact add_nonneg h2 hcpb
      · split_ifs with hc
        · intro cm hcm
          rcases List.mem_append.mp hcm with hcm | hcm
          · exact h3 cm hcm
          · have := List.mem_singleton.mp hcm
            subst this
            exact hcpb
        · exact h3

/-- C7 (amended, the provable part). Every accumulated cumulative loss
and every stored critical-moment loss is non-negative (each per-ply loss
is clamped with `max(0, ·)`); this holds for the internal list and for
the returned top list. -/
theorem c7_nonneg (moves : List String) (ev : Nat → Int) :
    0 ≤ (analyzeState moves ev).white_stats.total_cp_loss ∧
    0 ≤ (analyzeState moves ev).black_stats.total_cp_loss ∧
    (∀ cm ∈ (analyzeState moves ev).critical_moments, 0 ≤ cm.cp_loss) ∧
    (∀ cm ∈ (analyzeModular moves ev).2, 0 ≤ cm.cp_loss) := by
  have h : nonnegInvP (loopM ev {} moves) :=
    loopM_inv (P := nonnegInvP) ev (fun s m hs => nonnegInvP_step s m (ev s.move_num) hs)
      moves {} ⟨le_refl 0, le_refl 0, by simp⟩
  obtain ⟨h1, h2, h3⟩ := h
  refine ⟨h1, h2, h3, ?_⟩
  intro cm hcm
  have hcm2 : cm ∈ sortDesc (analyzeState moves ev).critical_moments :=
    (List.take_sublist 3 _).mem hcm
  exact h3 cm (mem_sortDesc.mp hcm2)

/-- Oracle used by the C7 witness and counterexample discussion:
evaluation `0` at the start, `400` afterwards. -/
def c7wEv : Nat → Int := fun n => if n = 0 then 0 else 400

/-- The critical moment the modular analyzer records for the two-ply game
against `c7wEv`. -/
def c7CM : CriticalMoment :=
  { move_num := 2
    player := Player.black
    move := "b"
    cp_loss := 400
    fen := 1
    pre_eval := 0
    post_eval := 400 }

/-- Witness for `c7_nonneg`: at the two-ply game against `c7wEv` the
accumulated totals are non-negative and the recorded critical moment has
non-negative loss. -/
theorem c7_witness :
    0 ≤ (analyzeState ["a", "b"] c7wEv).white_stats.total_cp_loss ∧
    (0:Int) ≤ c7CM.cp_loss := by
  refine ⟨(c7_nonneg ["a", "b"] c7wEv).1, ?_⟩
  exact (c7_nonneg ["a", "b"] c7wEv).2.2.1 _ (by decide)

/-- C7 counterexample. Black's only move (ply 2) leaves the White-side
evaluation unchanged (`c7wEv 2 = c7wEv 1`), so it does not worsen Black's
normalized evaluation and the claim demands a loss of exactly 0; the code
nevertheless charges Black a cumulative loss of 400, because a ply's loss
is computed from the evaluation delta across the previous ply. -/
theorem c7_counterexample :
    -(c7wEv 2) = -(c7wEv 1) ∧
    (analyzeState ["a", "b"] c7wEv).black_stats.move_count = 1 ∧
    (analyzeState ["a", "b"] c7wEv).black_stats.total_cp_loss = 400 := by
  refine ⟨rfl, ?_, ?_⟩ <;> decide

/-- Invariant for the zero-ply-side claim: a side that has not moved
still has its freshly initialized statistics dictionary. -/
def zeroInvP (st : MState) : Prop :=
  (st.white_stats.move_count = 0 → st.white_stats = {}) ∧
  (st.black_stats.move_count = 0 → st.black_stats = {})

theorem zeroInvP_step (s : MState) (m : String) (v : Int) (hs : zeroInvP s) :
    zeroInvP (stepCore s m v) := by
  obtain ⟨h1, h2⟩ := hs
  unfold zeroInvP stepCore
  cases hle : s.last_eval with
  | none =>
    by_cases hp : s.move_num % 2 = 0
    · simp only [hp, reduceIte, reduceCtorEq, eq_self_iff_true, if_true, if_false]
      refine ⟨?_, h2⟩
      intro h
      simp [bumpTier_move_count] at h
    · simp only [hp, reduceIte, reduceCtorEq, eq_self_iff_true, if_true, if_false]
      refine ⟨h1, ?_⟩
      intro h
      simp [bumpTier_move_count] at h
  | some le =>
    by_cases hp : s.move_num % 2 = 0
    · simp only [hp, reduceIte, reduceCtorEq, eq_self_iff_true, if_true, if_false]
      refine ⟨?_, h2⟩
      intro h
      simp [bumpTier_move_count] at h
    · simp only [hp, reduceIte, reduceCtorEq, eq_self_iff_true, if_true, if_false]
      refine ⟨h1, ?_⟩
      intro h
      simp [bumpTier_move_count] at h

/-- C8. A side whose ply count is zero keeps its all-zero statistics and
its average loss is 0 — the `if move_count else 0` guard means the
average never divides by zero (a zero-move game is the special case in
which this holds for both sides). -/
theorem c8_zero_ply (moves : List String) (ev : Nat → Int) :
    ((analyzeState moves ev).white_stats.move_count = 0 →
      (analyzeState moves ev).white_stats = {} ∧
      avgOf (analyzeState moves ev).white_stats = 0 ∧
      (summaryOf (analyzeState moves ev)).white.avg_cpl = StatValue.num 0) ∧
    ((analyzeState moves ev).black_stats.move_count = 0 →
      (analyzeState moves ev).black_stats = {} ∧
      avgOf (analyzeState moves ev).black_stats = 0 ∧
      (summaryOf (analyzeState moves ev)).black.avg_cpl = StatValue.num 0) := by
  have h : zeroInvP (loopM ev {} moves) :=
    loopM_inv (P := zeroInvP) ev (fun s m hs => zeroInvP_step s m (ev s.move_num) hs)
      moves {} ⟨fun _ => rfl, fun _ => rfl⟩
  obtain ⟨h1, h2⟩ := h
  constructor
  · intro hc
    have havg : avgOf (analyzeState moves ev).white_stats = 0 := by
      unfold avgOf
      simp [hc]
    exact ⟨h1 hc, havg, by simp [summaryOf, sideSummaryOf, havg]⟩
  · intro hc
    have havg : avgOf (analyzeState moves ev).black_stats = 0 := by
      unfold avgOf
      simp [hc]
    exact ⟨h2 hc, havg, by simp [summaryOf, sideSummaryOf, havg]⟩

/-- Witness for `c8_zero_ply`: the zero-move game. -/
theorem c8_witness :
    (analyzeState [] (fun _ => (0:Int))).white_stats = {} ∧
    avgOf (analyzeState [] (fun _ => (0:Int))).black_stats = 0 := by
  refine ⟨((c8_zero_ply [] (fun _ => 0)).1 rfl).1, ((c8_zero_ply [] (fun _ => 0)).2 rfl).2.1⟩

theorem loopM_congr (f g : Nat → Int) :
    ∀ (l : List String) (st : MState),
      (∀ i, st.move_num ≤ i → i < st.move_num + l.length → f i = g i) →
      loopM f st l = loopM g st l := by
  intro l
  induction l with
  | nil => intro st _; rfl
  | cons m rest ih =>
    intro st h
    have hfg : f st.move_num = g st.move_num :=
      h st.move_num le_rfl (by simp only [List.length_cons]; omega)
    show loopM f (stepCore st m (f st.move_num)) rest =
      loopM g (stepCore st m (g st.move_num)) rest
    rw [hfg]
    apply ih
    intro i hi1 hi2
    rw [stepCore_move_num] at hi1 hi2
    exact h i (by omega) (by simp only [List.length_cons]; omega)

/-- C9. The analysis is a deterministic function of the move list and the
oracle's answers: two oracles that agree on every queried position (the
`N` pre-move positions) produce identical statistics, summary and
critical-moment list, so re-running with a fresh but equally-scoring
engine instance is idempotent. -/
theorem c9_deterministic (moves : List String) (f g : Nat → Int)
    (h : ∀ i, i < moves.length → f i = g i) :
    analyzeState moves f = analyzeState moves g ∧
    analyzeModular moves f = analyzeModular moves g := by
  have h0 : ({} : MState).move_num = 0 := rfl
  have hst : analyzeState moves f = analyzeState moves g := by
    unfold analyzeState
    apply loopM_congr
    intro i hi1 hi2
    rw [h0] at hi2
    exact h i (by omega)
  exact ⟨hst, by unfold analyzeModular; rw [hst]⟩

/-- Witness for `c9_deterministic`: two oracles agreeing on the single
queried position of a one-ply game. -/
theorem c9_witness :
    analyzeModular ["a"] (fun _ => (7:Int)) =
      analyzeModular ["a"] (fun i => if i = 0 then (7:Int) else 99) := by
  refine (c9_deterministic ["a"] (fun _ => (7:Int))
    (fun i => if i = 0 then (7:Int) else 99) ?_).2
  intro i hi
  simp at hi
  subst hi
  rfl

theorem pairwise_insertCM (x : CriticalMoment) (l : List CriticalMoment)
    (hl : l.Pairwise cmOrder) (hmn : ∀ z ∈ l, x.move_num < z.move_num) :
    (insertCM x l).Pairwise cmOrder := by
  induction l with
  | nil => simp [insertCM, List.pairwise_singleton]
  | cons y ys ih =>
    rcases List.pairwise_cons.mp hl with ⟨hy, hys⟩
    unfold insertCM
    split_ifs with h
    · refine List.pairwise_cons.mpr ⟨?_, ih hys (fun z hz => hmn z (List.mem_cons_of_mem y hz))⟩
      intro z hz
      rcases mem_insertCM.mp hz with hz | hz
      · subst hz
        exact Or.inl h
      · exact hy z hz
    · refine List.pairwise_cons.mpr ⟨?_, hl⟩
      intro z hz
      rcases List.mem_cons.mp hz with hz | hz
      · subst hz
        have hx := hmn z (List.mem_cons_self z _)
        unfold cmOrder
        omega
      · have hyz := hy z hz
        have hxz := hmn z (List.mem_cons_of_mem y hz)
        unfold cmOrder at hyz ⊢
        omega

theorem pairwise_sortDesc (l : List CriticalMoment)
    (hl : l.Pairwise fun a b => a.move_num < b.move_num) :
    (sortDesc l).Pairwise cmOrder := by
  induction l with
  | nil => simp [sortDesc]
  | cons x xs ih =>
    rcases List.pairwise_cons.mp hl with ⟨hx, hxs⟩
    exact pairwise_insertCM x (sortDesc xs) (ih hxs)
      (fun z hz => hx z (mem_sortDesc.mp hz))

/-- Invariant of the accumulated critical-moment list: appended in ply
order (strictly increasing `move_num`, all bounded by the current ply)
and only entries strictly above the 10-centipawn floor. -/
def cmInvP (st : MState) : Prop :=
  (st.critical_moments.Pairwise fun a b => a.move_num < b.move_num) ∧
  ∀ cm ∈ st.critical_moments, 10 < cm.cp_loss ∧ cm.move_num ≤ st.move_num

theorem cmInvP_step (s : MState) (m : String) (v : Int) (hs : cmInvP s) :
    cmInvP (stepCore s m v) := by
  obtain ⟨h1, h2⟩ := hs
  unfold cmInvP stepCore
  cases hle : s.last_eval with
  | none =>
    by_cases hp : s.move_num % 2 = 0 <;>
      simp only [hp, reduceIte, reduceCtorEq, eq_self_iff_true, if_true, if_false] <;>
      exact ⟨h1, fun cm hcm => ⟨(h2 cm hcm).1, le_trans (h2 cm hcm).2 (Nat.le_succ _)⟩⟩
  | some le =>
    by_cases hp : s.move_num % 2 = 0 <;>
      simp only [hp, reduceIte, reduceCtorEq, eq_self_iff_true, if_true, if_false] <;>
      split_ifs with hc <;>
      first
        | exact ⟨h1, fun cm hcm => ⟨(h2 cm hcm).1, le_trans (h2 cm hcm).2 (Nat.le_succ _)⟩⟩
        | (refine ⟨?_, ?_⟩
           · rw [List.pairwise_append]
             refine ⟨h1, List.pairwise_singleton _ _, ?_⟩
             intro a ha b hb
             rcases List.mem_singleton.mp hb with rfl
             exact Nat.lt_succ_of_le (h2 a ha).2
           · intro cm hcm
             rcases List.mem_append.mp hcm with hcm | hcm
             · exact ⟨(h2 cm hcm).1, le_trans (h2 cm hcm).2 (Nat.le_succ _)⟩
             · rcases List.mem_singleton.mp hcm with rfl
               exact ⟨hc, le_refl _⟩)

/-- C5. The returned critical-moment list has length at most 3, is
sorted by strictly descending loss with ties broken by ascending ply
index, and contains only entries strictly above the 10-centipawn floor
(so a clean game may contribute fewer than 3 entries). -/
theorem c5_critical_list (moves : List String) (ev : Nat → Int) :
    (analyzeModular moves ev).2.length ≤ 3 ∧
    (analyzeModular moves ev).2.Pairwise cmOrder ∧
    ∀ cm ∈ (analyzeModular moves ev).2, 10 < cm.cp_loss := by
  have h : cmInvP (loopM ev {} moves) :=
    loopM_inv (P := cmInvP) ev (fun s m hs => cmInvP_step s m (ev s.move_num) hs)
      moves {} ⟨List.Pairwise.nil, by simp⟩
  obtain ⟨h1, h2⟩ := h
  refine ⟨?_, ?_, ?_⟩
  · show ((sortDesc (loopM ev {} moves).critical_moments).take 3).length ≤ 3
    rw [List.length_take]
    exact min_le_left _ _
  · exact ((pairwise_sortDesc _ h1).sublist (List.take_sublist 3 _))
  · intro cm hcm
    have hcm2 : cm ∈ sortDesc (loopM ev {} moves).critical_moments :=
      (List.take_sublist 3 _).mem hcm
    exact (h2 cm (mem_sortDesc.mp hcm2)).1

/-- Oracle used by the C5 witness: evaluation `0` at the start, `400`
afterwards, which makes the analyzer record one critical moment. -/
def c5wEv : Nat → Int := fun n => if n = 0 then 0 else 400

/-- The single critical moment recorded in the C5 witness game. -/
def c5CM : CriticalMoment :=
  { move_num := 2
    player := Player.black
    move := "d5"
    cp_loss := 400
    fen := 1
    pre_eval := 0
    post_eval := 400 }

/-- Witness for `c5_critical_list` at a concrete game with a recorded
critical moment. -/
theorem c5_witness :
    (analyzeModular ["e4", "d5"] c5wEv).2.length ≤ 3 ∧ 10 < c5CM.cp_loss :=
  ⟨(c5_critical_list ["e4", "d5"] c5wEv).1,
    (c5_critical_list ["e4", "d5"] c5wEv).2.2 c5CM (by decide)⟩

/-- Oracle of the C1 scenario: evaluation 0 for the starting position
and -350 for every later position (after White's first move and after
Black's reply). -/
def c1Ev : Nat → Int := fun n => if n = 0 then 0 else -350

/-- C1 (the code evaluated at the claimed scenario). On the two-ply game
whose White-perspective evaluations are 0, -350, -350 the analyzer
reports zero blunders and zero loss for White, all-zero tiers and zero
loss for Black, and an empty critical-moment list — not the claimed
White blunder with loss 350: each ply's loss is taken from the
evaluation delta across the previous ply, and the position after the
last ply is never evaluated. -/
theorem c1_scenario_all_zero :
    (analyzeState ["e4", "d5"] c1Ev).white_stats.blunders = 0 ∧
    (analyzeState ["e4", "d5"] c1Ev).white_stats.total_cp_loss = 0 ∧
    (analyzeState ["e4", "d5"] c1Ev).black_stats.blunders = 0 ∧
    (analyzeState ["e4", "d5"] c1Ev).black_stats.mistakes = 0 ∧
    (analyzeState ["e4", "d5"] c1Ev).black_stats.inaccuracies = 0 ∧
    (analyzeState ["e4", "d5"] c1Ev).black_stats.total_cp_loss = 0 ∧
    (analyzeModular ["e4", "d5"] c1Ev).2 = [] := by
  decide

theorem loopE_error (ev : Nat → Option Int) :
    ∀ (l : List String) (st : MState),
      (∃ k, st.move_num ≤ k ∧ k < st.move_num + l.length ∧ ev k = none) →
      loopE ev l st = Except.error () := by
  intro l
  induction l with
  | nil =>
    intro st h
    obtain ⟨k, h1, h2, -⟩ := h
    exfalso
    simp only [List.length_nil] at h2
    omega
  | cons a rest ih =>
    intro st h
    obtain ⟨k, h1, h2, h3⟩ := h
    unfold loopE
    cases hev : ev st.move_num with
    | none => rfl
    | some v =>
      apply ih
      refine ⟨k, ?_, ?_, h3⟩
      · rw [stepCore_move_num]
        rcases Nat.eq_or_lt_of_le h1 with heq | hlt
        · exfalso
          rw [heq, h3] at hev
          exact Option.noConfusion hev
        · omega
      · rw [stepCore_move_num]
        simp only [List.length_cons] at h2
        omega

/-- C3 (amended). When any evaluator query in range fails, the whole
analysis is abandoned: the function returns the fixed all-"N/A" fallback
summary with an empty critical-moment list (and without quitting the
engine); no partial numeric statistics are produced and no failed query
is scored as zero loss — but no error is surfaced to the caller. -/
theorem c3_fallback (moves : List String) (ev : Nat → Option Int)
    (h : ∃ k, k < moves.length ∧ ev k = none) :
    analyzeModularE moves ev =
      { summary := naSummary, critical := [], engineReleased := false } := by
  obtain ⟨k, hk, hnone⟩ := h
  have h0 : ({} : MState).move_num = 0 := rfl
  have herr : loopE ev moves {} = Except.error () :=
    loopE_error ev moves {} ⟨k, by omega, by omega, hnone⟩
  unfold analyzeModularE
  rw [herr]

/-- Witness for `c3_fallback`: an oracle failing on its very first query. -/
theorem c3_witness :
    analyzeModularE ["a"] (fun _ => none) =
      { summary := naSummary, critical := [], engineReleased := false } :=
  c3_fallback ["a"] (fun _ => none) ⟨0, by simp, rfl⟩

/-- Oracle of the C3 counterexample: the third query (position index 2)
raises; earlier queries succeed. -/
def c3Ev : Nat → Option Int := fun n => if n = 2 then none else some 0

/-- C3 counterexample. With an oracle that raises on the third query of
a four-ply game, `analyze_with_stockfish` does not abort with an error:
it catches the exception and returns the "N/A" fallback result to the
caller (and the engine is left unreleased). -/
theorem c3_counterexample :
    analyzeModularE ["a", "b", "c", "d"] c3Ev =
      { summary := naSummary, critical := [], engineReleased := false } := by
  decide

/-- Oracle of the C4 failing input: the first query succeeds, the second
raises mid-game. -/
def c4Ev : Nat → Option Int := fun n => if n = 0 then some 0 else none

/-- C4 (the code evaluated at the failing input). When an evaluator
query raises after the engine process was acquired, the `except` handler
returns without running `engine.quit()`, so the engine is not released
on that exit path; on normal completion (second conjunct, the zero-ply
game) it is released. -/
theorem c4_leak :
    (analyzeModularE ["a", "b"] c4Ev).engineReleased = false ∧
    (analyzeModularE [] (fun _ => some 0)).engineReleased = true := by
  decide

/-- Threshold mismatch lemma: away from the bands (20,50] and (75,100]
the two historical threshold chains classify a loss identically. -/
theorem bumpTier_eq_old (s : PlayerStats) (l : Int)
    (hb1 : ¬(20 < l ∧ l ≤ 50)) (hb2 : ¬(75 < l ∧ l ≤ 100)) :
    bumpTierOld s l = bumpTier s l := by
  unfold bumpTier bumpTierOld
  split_ifs <;> first | rfl | omega

/-- Sign condition under which the old variant's `abs` loss agrees with
the modular variant's mover-signed `max(0, ·)` loss at every classified
ply: across each ply the evaluation must not move against the NEXT
mover (for even indices the evaluation does not rise, for odd indices it
does not fall). -/
def signCond (ev : Nat → Int) : Prop :=
  ∀ m : Nat, 1 ≤ m →
    (m % 2 = 0 → ev m ≤ ev (m - 1)) ∧ (m % 2 = 1 → ev (m - 1) ≤ ev m)

/-- Band condition: no per-ply evaluation delta magnitude falls in
(20,50] or (75,100], the two bands on which the threshold sets
50/100/300 and 20/75/300 disagree. -/
def bandCond (ev : Nat → Int) : Prop :=
  ∀ m : Nat, 1 ≤ m →
    ¬(20 < |ev (m - 1) - ev m| ∧ |ev (m - 1) - ev m| ≤ 50) ∧
    ¬(75 < |ev (m - 1) - ev m| ∧ |ev (m - 1) - ev m| ≤ 100)

/-- Simulation relation between the loop states of `analyzer.py` and
`modular_analyzer.py`: equal statistics, equal replay position, and the
running last evaluation is the previous position's score. -/
def c10Rel (ev : Nat → Int) (o : OState) (ms : MState) : Prop :=
  o.white_stats = ms.white_stats ∧ o.black_stats = ms.black_stats ∧
  o.move_num = ms.move_num ∧ o.last_eval = ms.last_eval ∧
  ms.last_eval = if ms.move_num = 0 then none else some (ev (ms.move_num - 1))

theorem c10Rel_step (ev : Nat → Int) (o : OState) (ms : MState) (m : String)
    (hs : signCond ev) (hb : bandCond ev) (hr : c10Rel ev o ms) :
    c10Rel ev (stepOldCore o (ev o.move_num)) (stepCore ms m (ev ms.move_num)) := by
  obtain ⟨hw, hbk, hmn, hle, hshape⟩ := hr
  by_cases h0 : ms.move_num = 0
  · have hnone : ms.last_eval = none := by rw [hshape, if_pos h0]
    have honone : o.last_eval = none := by rw [hle, hnone]
    unfold c10Rel stepOldCore stepCore
    simp only [hw, hbk, hmn, h0, honone, hnone]
    simp
  · have hsome : ms.last_eval = some (ev (ms.move_num - 1)) := by
      rw [hshape, if_neg h0]
    have hosome : o.last_eval = some (ev (ms.move_num - 1)) := by rw [hle, hsome]
    by_cases hp : ms.move_num % 2 = 0
    · have hd : ev ms.move_num ≤ ev (ms.move_num - 1) :=
        (hs ms.move_num (by omega)).1 hp
      have habs : |ev (ms.move_num - 1) - ev ms.move_num| =
          max 0 (ev (ms.move_num - 1) - ev ms.move_num) := by
        rw [abs_of_nonneg (by omega), max_eq_right (by omega)]
      have hb2 := hb ms.move_num (by omega)
      rw [habs] at hb2
      unfold c10Rel stepOldCore stepCore
      simp only [hosome, hsome, hmn, hp, reduceIte, reduceCtorEq,
        eq_self_iff_true, if_true, if_false]
      refine ⟨?_, hbk, by trivial, by trivial, ?_⟩
      · rw [hw, habs]
        exact bumpTier_eq_old _ _ hb2.1 hb2.2
      · simp
    · have hodd : ms.move_num % 2 = 1 := by omega
      have hd : ev (ms.move_num - 1) ≤ ev ms.move_num :=
        (hs ms.move_num (by omega)).2 hodd
      have habs : |ev (ms.move_num - 1) - ev ms.move_num| =
          max 0 (ev ms.move_num - ev (ms.move_num - 1)) := by
        rw [abs_sub_comm, abs_of_nonneg (by omega), max_eq_right (by omega)]
      have hb2 := hb ms.move_num (by omega)
      rw [habs] at hb2
      unfold c10Rel stepOldCore stepCore
      simp only [hosome, hsome, hmn, hp, reduceIte, reduceCtorEq,
        eq_self_iff_true, if_true, if_false]
      refine ⟨hw, ?_, by trivial, by trivial, ?_⟩
      · rw [hbk, habs]
        exact bumpTier_eq_old _ _ hb2.1 hb2.2
      · simp

theorem c10_loops (ev : Nat → Int) (hs : signCond ev) (hb : bandCond ev) :
    ∀ (l : List String) (o : OState) (ms : MState), c10Rel ev o ms →
      c10Rel ev (loopOld ev o l) (loopM ev ms l) := by
  intro l
  induction l with
  | nil => intro o ms hr; exact hr
  | cons a rest ih =>
    intro o ms hr
    exact ih _ _ (c10Rel_step ev o ms a hs hb hr)

/-- C10 (amended). The two variants always replay plies and count moves
identically; under the sign condition (each classified delta is
non-negative in the later mover's sign convention, which makes
`abs` equal `max(0, ·)`) and with no delta magnitude in the threshold
disagreement bands (20,50] and (75,100], they produce equal per-side
statistics, hence equal blunder/mistake/inaccuracy counts and equal
average centipawn loss.  Without those conditions the counts and
averages differ (see the counterexample). -/
theorem c10_agree (moves : List String) (ev : Nat → Int)
    (hs : signCond ev) (hb : bandCond ev) :
    (analyzeOldState moves ev).white_stats = (analyzeState moves ev).white_stats ∧
    (analyzeOldState moves ev).black_stats = (analyzeState moves ev).black_stats ∧
    avgOf (analyzeOldState moves ev).white_stats =
      avgOf (analyzeState moves ev).white_stats ∧
    avgOf (analyzeOldState moves ev).black_stats =
      avgOf (analyzeState moves ev).black_stats := by
  have h := c10_loops ev hs hb moves {} {} ⟨rfl, rfl, rfl, rfl, by simp⟩
  obtain ⟨hw, hbk, -, -, -⟩ := h
  exact ⟨hw, hbk, congrArg avgOf hw, congrArg avgOf hbk⟩

/-- Oracle of the C10 counterexample: evaluations 0 then -400. -/
def c10Ev : Nat → Int := fun n => if n = 0 then 0 else -400

/-- C10 counterexample. On the two-ply game with evaluations 0, -400 the
old variant counts a Black blunder (`abs` loss 400) with average loss
400, while the modular variant counts none (mover-signed loss
`max(0, -400) = 0`) with average loss 0 — the claimed equality of
per-side counts and averages is false. -/
theorem c10_counterexample :
    (analyzeOldState ["e4", "d5"] c10Ev).black_stats.blunders = 1 ∧
    (analyzeState ["e4", "d5"] c10Ev).black_stats.blunders = 0 ∧
    avgOf (analyzeOldState ["e4", "d5"] c10Ev).black_stats = 400 ∧
    avgOf (analyzeState ["e4", "d5"] c10Ev).black_stats = 0 := by
  decide

/-- Oracle of the C10 witness: evaluations 0, 400, 0, 0, … which satisfy
both side conditions and exercise a blunder for each side. -/
def c10wEv : Nat → Int := fun n => if n = 1 then 400 else 0

theorem c10wEv_signCond : signCond c10wEv := by
  intro m hm
  unfold c10wEv
  constructor <;> intro hpar <;> split_ifs <;> omega

theorem c10wEv_bandCond : bandCond c10wEv := by
  intro m hm
  unfold c10wEv
  constructor <;> split_ifs <;> decide

/-- Witness for `c10_agree`: at the three-ply game against `c10wEv` both
side conditions hold and the two variants produce the same White
statistics (one blunder each side, in fact). -/
theorem c10_witness :
    (analyzeOldState ["e4", "d5", "c3"] c10wEv).white_stats =
      (analyzeState ["e4", "d5", "c3"] c10wEv).white_stats ∧
    (analyzeOldState ["e4", "d5", "c3"] c10wEv).white_stats.blunders = 1 :=
  ⟨(c10_agree ["e4", "d5", "c3"] c10wEv c10wEv_signCond c10wEv_bandCond).1,
    by decide⟩

end MAIgnus
